import Mathlib

/-!
# Verification of the local nutrition-diary data layer

Shallow embedding of `db/actions/diaryActions.ts`: the food search
(`searchFoods`), the logging service (`logFoodToDiary`) and the reactive
query facade (`observeDiaryEntriesForDate`), together with the data model
(`Food`, `DiaryEntry`) they operate on.

JavaScript numbers are modelled as rationals (`ℚ`); none of the verified
properties depends on binary floating-point rounding.  The WatermelonDB
storage engine is external to the repository; the pieces of its contract
the code relies on (the `Q.like` predicate semantics, the all-or-nothing
`database.write` block, the live `observe` subscription) are modelled
explicitly below, each marked in its doc comment.
-/

/-- A record of the `foods` collection: per-serving nutrient data. -/
structure Food where
  id : String
  name : String
  calories : ℚ
  protein_g : ℚ
  carbs_g : ℚ
  fat_g : ℚ
deriving DecidableEq, Repr

/-- The meal-type union `"breakfast" | "lunch" | "dinner" | "snacks"`. -/
inductive MealType where
  | breakfast
  | lunch
  | dinner
  | snacks
deriving DecidableEq, Repr

/-- A record of the `diary_entries` collection, with the four denormalized
nutrient totals. -/
structure DiaryEntry where
  id : String
  userId : String
  foodId : String
  date : String
  mealType : MealType
  servings : ℚ
  calories : ℚ
  protein_g : ℚ
  carbs_g : ℚ
  fat_g : ℚ
deriving DecidableEq, Repr

/-- The local database: the two collections the actions touch. -/
structure DB where
  foods : List Food
  diary_entries : List DiaryEntry
deriving DecidableEq, Repr

/-! ## The LIKE predicate

`Q.like` is delegated to the storage engine; SQLite's `LIKE` matches
case-insensitively (ASCII), with `%` matching any sequence of characters
and `_` matching any single character.  Modelled from the spec: the engine
provides "contains substring" predicates; the code builds the pattern
`%word%` by plain interpolation. -/

/-- All contiguous tail segments of a list, the full list and `[]` included. -/
def allSuffixes : List Char → List (List Char)
  | [] => [[]]
  | c :: s => (c :: s) :: allSuffixes s

def likeMatch : List Char → List Char → Bool
  | [], s => s.isEmpty
  | p :: ps, s =>
    if p = '%' then (allSuffixes s).any (fun t => likeMatch ps t)
    else
      match s with
      | [] => false
      | c :: s' => ((p == '_') || (p.toLower == c.toLower)) && likeMatch ps s'

/-- Does the list start with the given token (exact character match)? -/
def listStartsWith : List Char → List Char → Bool
  | [], _ => true
  | _ :: _, [] => false
  | a :: as, b :: bs => (a == b) && listStartsWith as bs

/-- Does `tok` occur contiguously inside `s` (exact character match)? -/
def containsSub (tok : List Char) : List Char → Bool
  | [] => tok.isEmpty
  | c :: s => listStartsWith tok (c :: s) || containsSub tok s

/-- Case-insensitive "name contains token as a substring", the notion used
by the specification to describe matching. -/
def containsCI (tok name : List Char) : Bool :=
  containsSub (tok.map Char.toLower) (name.map Char.toLower)

/-! ## searchFoods -/

/-- JavaScript `String.prototype.split(" ")`: split on single space
characters, keeping empty chunks. -/
def splitOnSpace : List Char → List (List Char)
  | [] => [[]]
  | c :: rest =>
    if c = ' ' then [] :: splitOnSpace rest
    else
      match splitOnSpace rest with
      | [] => [[c]]
      | t :: ts => (c :: t) :: ts

/-- Split on spaces and keep the truthy (non-empty) chunks. -/
def tokensOf (d : List Char) : List (List Char) :=
  (splitOnSpace d).filter (fun w => !w.isEmpty)

/-- `query.toLowerCase().split(" ").filter((w) => w)` from `searchFoods`. -/
def searchWords (query : String) : List (List Char) :=
  tokensOf (query.data.map Char.toLower)

/-- One food satisfies `Q.and(...searchWords.map((word) => Q.where("name",
Q.like(`%word%`))))`: every word's `%word%` pattern matches the name.  An
empty word list is the empty conjunction, which matches every record. -/
def foodMatches (words : List (List Char)) (f : Food) : Bool :=
  words.all (fun w => likeMatch ('%' :: (w ++ ['%'])) f.name.data)

/-- `searchFoods` from `db/actions/diaryActions.ts`: `if (!query) return []`
(only the empty string is falsy), then lowercase, split on `" "`, drop
empty words, and fetch the foods matching the conjunction of `%word%`
LIKE predicates. -/
def searchFoods (query : String) (foods : List Food) : List Food :=
  if query = "" then []
  else foods.filter (foodMatches (searchWords query))

/-! ## logFoodToDiary -/

/-- The `options` argument of `logFoodToDiary`. -/
structure LogOptions where
  userId : String
  food : Food
  date : String
  mealType : MealType
  servings : ℚ

/-- The error kinds a store write can surface.  The source defines no
validation error of its own; the only failure is the engine's. -/
inductive WriteError where
  | writeFailed
deriving DecidableEq, Repr

/-- Whether the engine commits the write transaction; the engine, not this
code, decides. -/
inductive WriteOutcome where
  | committed
  | failed
deriving DecidableEq, Repr

/-- The record built by the `create` callback of `logFoodToDiary`: the
supplied fields plus the four denormalized totals `food.<field> * servings`,
under a freshly generated id. -/
def buildEntry (freshId : String) (o : LogOptions) : DiaryEntry :=
  { id := freshId
    userId := o.userId
    foodId := o.food.id
    date := o.date
    mealType := o.mealType
    servings := o.servings
    calories := o.food.calories * o.servings
    protein_g := o.food.protein_g * o.servings
    carbs_g := o.food.carbs_g * o.servings
    fat_g := o.food.fat_g * o.servings }

/-- Modelled from the spec: the storage engine's `database.write` block is
a scoped atomic write — all-or-nothing.  On commit the one record built in
the block is appended whole to `diary_entries`; on failure the database is
left exactly as it was and the error surfaces. -/
def databaseWrite (outcome : WriteOutcome) (entry : DiaryEntry) (db : DB) :
    DB × Except WriteError Unit :=
  match outcome with
  | WriteOutcome.committed =>
      ({ db with diary_entries := db.diary_entries ++ [entry] }, Except.ok ())
  | WriteOutcome.failed => (db, Except.error WriteError.writeFailed)

/-- `logFoodToDiary` from `db/actions/diaryActions.ts`: destructure the
options, run one `database.write` whose `create` callback sets every field
of the new entry, and return — the function's own result is `void`
(`Except.ok ()` on commit), never the created record.  No precondition is
checked before the write. -/
def logFoodToDiary (freshId : String) (outcome : WriteOutcome) (o : LogOptions)
    (db : DB) : DB × Except WriteError Unit :=
  databaseWrite outcome (buildEntry freshId o) db

/-! ## observeDiaryEntriesForDate -/

/-- The matching set of `Q.where("date", date)`: the entries whose `date`
column equals the key exactly. -/
def matchingEntries (date : String) (db : DB) : List DiaryEntry :=
  db.diary_entries.filter (fun e => e.date == date)

/-- A database after one more entry is stored (the shape of a mutation the
logging path produces). -/
def appendEntry (e : DiaryEntry) (db : DB) : DB :=
  { db with diary_entries := db.diary_entries ++ [e] }

/-- Modelled from the spec: the engine's live subscription delivers, after
each store state in turn, the current matching set whenever it differs from
the last delivered one; `prev` is the last delivered matching set. -/
def deliverAux (date : String) (prev : List DiaryEntry) :
    List DB → List (List DiaryEntry)
  | [] => []
  | db :: rest =>
    if matchingEntries date db = prev then deliverAux date prev rest
    else matchingEntries date db :: deliverAux date (matchingEntries date db) rest

/-- `observeDiaryEntriesForDate` from `db/actions/diaryActions.ts`, run over
a history: `states` are the successive store states after each mutation
during the subscription's life.  Modelled from the spec: the subscription
delivers the current matching set immediately, then re-delivers the full
matching set after every mutation that changes it. -/
def observeDiaryEntriesForDate (date : String) (init : DB) (states : List DB) :
    List (List DiaryEntry) :=
  matchingEntries date init :: deliverAux date (matchingEntries date init) states

/-- Modelled from the spec: a later external mutation of a catalog record —
the FoodRecord with the given id gets new `calories`.  The diary collection
is not touched by such an update. -/
def updateFoodCalories (foodId : String) (newCalories : ℚ) (db : DB) : DB :=
  { db with
    foods := db.foods.map (fun f =>
      if f.id = foodId then { f with calories := newCalories } else f) }


/-! ## Characterizing the LIKE matcher -/

theorem listStartsWith_iff (t s : List Char) :
    listStartsWith t s = true ↔ ∃ s2, s = t ++ s2 := by
  induction t generalizing s with
  | nil => simp [listStartsWith]
  | cons a as ih =>
    cases s with
    | nil => simp [listStartsWith]
    | cons b bs =>
      simp only [listStartsWith, Bool.and_eq_true, beq_iff_eq, ih, List.cons_append,
        List.cons.injEq]
      exact ⟨fun ⟨h1, s2, h2⟩ => ⟨s2, h1.symm, h2⟩, fun ⟨s2, h1, h2⟩ => ⟨h1.symm, s2, h2⟩⟩

theorem containsSub_iff (t s : List Char) :
    containsSub t s = true ↔ ∃ s1 s2, s = s1 ++ t ++ s2 := by
  induction s with
  | nil =>
    simp only [containsSub, List.isEmpty_iff]
    constructor
    · rintro rfl
      exact ⟨[], [], rfl⟩
    · rintro ⟨s1, s2, h⟩
      have := h.symm
      simp only [List.append_assoc, List.append_eq_nil] at this
      exact this.2.1
  | cons c s ih =>
    simp only [containsSub, Bool.or_eq_true, listStartsWith_iff, ih]
    constructor
    · rintro (⟨s2, h⟩ | ⟨s1, s2, rfl⟩)
      · exact ⟨[], s2, by simp [h]⟩
      · exact ⟨c :: s1, s2, by simp⟩
    · rintro ⟨s1, s2, h⟩
      cases s1 with
      | nil => exact Or.inl ⟨s2, by simpa using h⟩
      | cons d s1 =>
        rw [List.cons_append, List.cons_append, List.cons.injEq] at h
        exact Or.inr ⟨s1, s2, h.2⟩

theorem mem_allSuffixes (t s : List Char) :
    t ∈ allSuffixes s ↔ ∃ s1, s = s1 ++ t := by
  induction s with
  | nil =>
    simp only [allSuffixes, List.mem_singleton]
    constructor
    · rintro rfl; exact ⟨[], rfl⟩
    · rintro ⟨s1, h⟩
      have := h.symm
      rw [List.append_eq_nil] at this
      exact this.2
  | cons c s ih =>
    simp only [allSuffixes, List.mem_cons, ih]
    constructor
    · rintro (rfl | ⟨s1, rfl⟩)
      · exact ⟨[], rfl⟩
      · exact ⟨c :: s1, rfl⟩
    · rintro ⟨s1, h⟩
      cases s1 with
      | nil => exact Or.inl (by simpa using h.symm)
      | cons d s1 =>
        rw [List.cons_append, List.cons.injEq] at h
        exact Or.inr ⟨s1, h.2⟩

theorem likeMatch_nil (s : List Char) : likeMatch [] s = true ↔ s = [] := by
  simp [likeMatch, List.isEmpty_iff]

theorem likeMatch_pct (ps : List Char) (s : List Char) :
    likeMatch ('%' :: ps) s = true ↔ ∃ s1 s2, s = s1 ++ s2 ∧ likeMatch ps s2 = true := by
  have h : likeMatch ('%' :: ps) s = (allSuffixes s).any (fun t => likeMatch ps t) := by
    simp [likeMatch]
  rw [h, List.any_eq_true]
  constructor
  · rintro ⟨t, ht, hl⟩
    obtain ⟨s1, rfl⟩ := (mem_allSuffixes t s).mp ht
    exact ⟨s1, t, rfl, hl⟩
  · rintro ⟨s1, s2, rfl, hl⟩
    exact ⟨s2, (mem_allSuffixes s2 (s1 ++ s2)).mpr ⟨s1, rfl⟩, hl⟩

theorem likeMatch_pct_total (s : List Char) : likeMatch ['%'] s = true := by
  rw [likeMatch_pct]
  exact ⟨s, [], by simp, by simp [likeMatch]⟩

theorem likeMatch_lit (p : Char) (ps : List Char) (s : List Char)
    (hp : p ≠ '%') (hu : p ≠ '_') :
    likeMatch (p :: ps) s = true ↔
      ∃ c s', s = c :: s' ∧ p.toLower = c.toLower ∧ likeMatch ps s' = true := by
  cases s with
  | nil => simp [likeMatch, if_neg hp]
  | cons c s' =>
    simp only [likeMatch, if_neg hp, Bool.and_eq_true, Bool.or_eq_true, beq_iff_eq,
      beq_eq_false_iff_ne]
    constructor
    · rintro ⟨(h | h), hm⟩
      · exact absurd h hu
      · exact ⟨c, s', rfl, h, hm⟩
    · rintro ⟨c', s'', h, hl, hm⟩
      rw [List.cons.injEq] at h
      obtain ⟨rfl, rfl⟩ := h
      exact ⟨Or.inr hl, hm⟩

theorem likeMatch_block (w ps : List Char) (s : List Char)
    (hp : '%' ∉ w) (hu : '_' ∉ w) :
    likeMatch (w ++ ps) s = true ↔
      ∃ s1 s2, s = s1 ++ s2 ∧ s1.map Char.toLower = w.map Char.toLower ∧
        likeMatch ps s2 = true := by
  induction w generalizing s with
  | nil =>
    simp only [List.nil_append, List.map_nil, List.map_eq_nil_iff]
    constructor
    · intro h
      exact ⟨[], s, rfl, rfl, h⟩
    · rintro ⟨s1, s2, rfl, rfl, h⟩
      simpa using h
  | cons a w ih =>
    have ha : a ≠ '%' := fun h => hp (h ▸ List.mem_cons_self a w)
    have hb : a ≠ '_' := fun h => hu (h ▸ List.mem_cons_self a w)
    rw [List.cons_append, likeMatch_lit a (w ++ ps) s ha hb]
    constructor
    · rintro ⟨c, s', rfl, hl, hm⟩
      obtain ⟨s1, s2, rfl, hmap, hps⟩ :=
        (ih s' (fun h => hp (List.mem_cons_of_mem a h))
          (fun h => hu (List.mem_cons_of_mem a h))).mp hm
      exact ⟨c :: s1, s2, rfl, by simp [hmap, hl.symm], hps⟩
    · rintro ⟨s1, s2, hs, hmap, hps⟩
      cases s1 with
      | nil => simp at hmap
      | cons c s1 =>
        rw [List.cons_append] at hs
        simp only [List.map_cons, List.cons.injEq] at hmap
        refine ⟨c, s1 ++ s2, hs, hmap.1.symm, ?_⟩
        exact (ih (s1 ++ s2) (fun h => hp (List.mem_cons_of_mem a h))
          (fun h => hu (List.mem_cons_of_mem a h))).mpr ⟨s1, s2, rfl, hmap.2, hps⟩

/-- The heart of the search analysis: on a token free of `%` and `_`, the
interpolated `%token%` LIKE pattern agrees with case-insensitive literal
substring containment. -/
theorem likeMatch_token (w s : List Char) (hp : '%' ∉ w) (hu : '_' ∉ w) :
    likeMatch ('%' :: (w ++ ['%'])) s = containsCI w s := by
  rw [Bool.eq_iff_iff, likeMatch_pct, containsCI, containsSub_iff]
  constructor
  · rintro ⟨s1, s2, rfl, h⟩
    obtain ⟨s3, s4, rfl, hmap, _⟩ := (likeMatch_block w ['%'] s2 hp hu).mp h
    exact ⟨s1.map Char.toLower, s4.map Char.toLower, by simp [hmap]⟩
  · rintro ⟨t1, t2, h⟩
    rw [List.append_assoc] at h
    obtain ⟨l1, l2, rfl, _, h2⟩ := List.map_eq_append_iff.mp h
    obtain ⟨l3, l4, rfl, h3, _⟩ := List.map_eq_append_iff.mp h2
    refine ⟨l1, l3 ++ l4, rfl, ?_⟩
    exact (likeMatch_block w ['%'] (l3 ++ l4) hp hu).mpr
      ⟨l3, l4, rfl, h3, likeMatch_pct_total l4⟩


/-! ## Tokenization lemmas -/

theorem splitOnSpace_ne_nil (d : List Char) : splitOnSpace d ≠ [] := by
  cases d with
  | nil => simp [splitOnSpace]
  | cons c rest =>
    by_cases hc : c = ' '
    · simp [splitOnSpace, hc]
    · cases h : splitOnSpace rest <;> simp [splitOnSpace, hc, h]

theorem splitOnSpace_append_space (d : List Char) :
    splitOnSpace (d ++ [' ']) = splitOnSpace d ++ [[]] := by
  induction d with
  | nil => simp [splitOnSpace]
  | cons c rest ih =>
    by_cases hc : c = ' '
    · simp [splitOnSpace, hc, ih]
    · cases h : splitOnSpace rest with
      | nil => exact absurd h (splitOnSpace_ne_nil rest)
      | cons t ts => simp [splitOnSpace, hc, ih, h]

theorem tokensOf_space_cons (d : List Char) : tokensOf (' ' :: d) = tokensOf d := by
  simp [tokensOf, splitOnSpace]

theorem tokensOf_append_space (d : List Char) : tokensOf (d ++ [' ']) = tokensOf d := by
  simp [tokensOf, splitOnSpace_append_space, List.filter_append]

theorem tokensOf_replicate_append (n : ℕ) (d : List Char) :
    tokensOf (List.replicate n ' ' ++ d) = tokensOf d := by
  induction n with
  | zero => simp
  | succ n ih => simpa [List.replicate_succ, tokensOf_space_cons] using ih

theorem tokensOf_append_replicate (m : ℕ) (d : List Char) :
    tokensOf (d ++ List.replicate m ' ') = tokensOf d := by
  induction m generalizing d with
  | zero => simp
  | succ m ih =>
    rw [List.replicate_succ, List.append_cons, ih (d ++ [' ']), tokensOf_append_space]

theorem tokensOf_replicate (n : ℕ) : tokensOf (List.replicate n ' ') = [] := by
  have := tokensOf_replicate_append n []
  simpa [tokensOf, splitOnSpace] using this

/-- A string made of `n` space characters. -/
def spacesOnly (n : ℕ) : String := ⟨List.replicate n ' '⟩

/-! ## Observation lemmas -/

theorem mem_deliverAux (date : String) (prev : List DiaryEntry) (states : List DB)
    (snap : List DiaryEntry) (h : snap ∈ deliverAux date prev states) :
    ∃ db ∈ states, snap = matchingEntries date db := by
  induction states generalizing prev with
  | nil => simp [deliverAux] at h
  | cons db rest ih =>
    rw [deliverAux] at h
    by_cases hc : matchingEntries date db = prev
    · rw [if_pos hc] at h
      obtain ⟨db', hdb', rfl⟩ := ih prev h
      exact ⟨db', List.mem_cons_of_mem db hdb', rfl⟩
    · rw [if_neg hc] at h
      rcases List.mem_cons.mp h with rfl | h'
      · exact ⟨db, List.mem_cons_self db rest, rfl⟩
      · obtain ⟨db', hdb', rfl⟩ := ih _ h'
        exact ⟨db', List.mem_cons_of_mem db hdb', rfl⟩

theorem date_of_mem_matching (date : String) (db : DB) (e : DiaryEntry)
    (h : e ∈ matchingEntries date db) : e.date = date := by
  rw [matchingEntries, List.mem_filter] at h
  exact beq_iff_eq.mp h.2

/-! ## Boolean `all` congruence helpers -/

theorem all_congr_mem {α : Type} {l : List α} {p q : α → Bool}
    (h : ∀ x ∈ l, p x = q x) : l.all p = l.all q := by
  induction l with
  | nil => rfl
  | cons a l ih =>
    simp only [List.all_cons, h a (List.mem_cons_self a l),
      ih (fun x hx => h x (List.mem_cons_of_mem a hx))]

theorem all_eq_of_mem_iff {α : Type} {l1 l2 : List α} (h : ∀ x, x ∈ l1 ↔ x ∈ l2)
    (p : α → Bool) : l1.all p = l2.all p := by
  rw [Bool.eq_iff_iff, List.all_eq_true, List.all_eq_true]
  exact ⟨fun H x hx => H x ((h x).mpr hx), fun H x hx => H x ((h x).mp hx)⟩

/-! ## Concrete fixtures -/

/-- The spec's P3 example food. -/
def grilledChicken : Food := ⟨"f1", "Grilled Chicken Breast", 165, 31, 0, 3.6⟩

/-- P3's logging call: two servings of the example food. -/
def logP3opts : LogOptions := ⟨"u1", grilledChicken, "2024-01-15", MealType.lunch, 2⟩

/-- A logging call violating the servings-positivity precondition. -/
def negServingsOpts : LogOptions := ⟨"u1", grilledChicken, "2024-01-15", MealType.lunch, -1⟩

def foodXyz : Food := ⟨"f2", "xyz", 0, 0, 0, 0⟩

def foodAbc : Food := ⟨"f3", "abc", 0, 0, 0, 0⟩

/-! ## Claim theorems -/

/-- C1: the DiaryEntry created by `logFoodToDiary` carries the four
denormalized totals `food.<field> * servings`; in particular the P3 food
(165 kcal, 31 g protein, 0 g carbs, 3.6 g fat) at 2 servings yields
330 / 62 / 0 / 7.2. -/
theorem logFoodToDiary_denormalizes :
    (∀ (fid : String) (o : LogOptions) (db : DB),
      (logFoodToDiary fid WriteOutcome.committed o db).1.diary_entries
          = db.diary_entries ++ [buildEntry fid o] ∧
      (buildEntry fid o).calories = o.food.calories * o.servings ∧
      (buildEntry fid o).protein_g = o.food.protein_g * o.servings ∧
      (buildEntry fid o).carbs_g = o.food.carbs_g * o.servings ∧
      (buildEntry fid o).fat_g = o.food.fat_g * o.servings) ∧
    ((buildEntry "e1" logP3opts).calories = 330 ∧
      (buildEntry "e1" logP3opts).protein_g = 62 ∧
      (buildEntry "e1" logP3opts).carbs_g = 0 ∧
      (buildEntry "e1" logP3opts).fat_g = 7.2) := by
  constructor
  · exact fun fid o db => ⟨rfl, rfl, rfl, rfl, rfl⟩
  · refine ⟨?_, ?_, ?_, ?_⟩ <;> norm_num [buildEntry, logP3opts, grilledChicken]

/-- C4 counterexample: a call with `servings = -1` (a precondition
violation) is not rejected — the write proceeds, succeeds, and creates an
entry with the negative totals; no InvalidInput error exists anywhere in
the code's error surface. -/
theorem logFoodToDiary_no_validation_cex :
    (logFoodToDiary "e1" WriteOutcome.committed negServingsOpts ⟨[grilledChicken], []⟩).2
        = Except.ok () ∧
    (logFoodToDiary "e1" WriteOutcome.committed negServingsOpts ⟨[grilledChicken], []⟩).1.diary_entries
        = [buildEntry "e1" negServingsOpts] ∧
    (buildEntry "e1" negServingsOpts).servings = -1 ∧
    (buildEntry "e1" negServingsOpts).calories = -165 := by
  refine ⟨rfl, rfl, rfl, ?_⟩
  norm_num [buildEntry, negServingsOpts, grilledChicken]

/-- C4 as amended: `logFoodToDiary` checks no precondition at all — even
with non-positive servings the call reaches the store and, when the engine
commits, a DiaryEntry is created with exactly the supplied values. -/
theorem logFoodToDiary_no_validation (fid uid d : String) (f : Food)
    (m : MealType) (s : ℚ) (db : DB) (_hs : s ≤ 0) :
    (logFoodToDiary fid WriteOutcome.committed ⟨uid, f, d, m, s⟩ db).2
        = Except.ok () ∧
    (logFoodToDiary fid WriteOutcome.committed ⟨uid, f, d, m, s⟩ db).1.diary_entries
        = db.diary_entries ++ [buildEntry fid ⟨uid, f, d, m, s⟩] :=
  ⟨rfl, rfl⟩

theorem logFoodToDiary_no_validation_witness :
    (logFoodToDiary "e2" WriteOutcome.committed
        ⟨"u1", grilledChicken, "2024-01-15", MealType.snacks, -1⟩
        ⟨[grilledChicken], []⟩).2 = Except.ok () ∧
    (logFoodToDiary "e2" WriteOutcome.committed
        ⟨"u1", grilledChicken, "2024-01-15", MealType.snacks, -1⟩
        ⟨[grilledChicken], []⟩).1.diary_entries
      = [buildEntry "e2" ⟨"u1", grilledChicken, "2024-01-15", MealType.snacks, -1⟩] :=
  logFoodToDiary_no_validation "e2" "u1" "2024-01-15" grilledChicken
    MealType.snacks (-1) ⟨[grilledChicken], []⟩ (by norm_num)

/-- C5: the creation is atomic.  Whatever the engine decides, either the
one complete entry (every field, totals included) is appended and the call
reports success, or the database is exactly unchanged and the call reports
`writeFailed` — no partial record is ever visible. -/
theorem logFoodToDiary_atomic (fid : String) (outcome : WriteOutcome)
    (o : LogOptions) (db : DB) :
    (logFoodToDiary fid outcome o db).1.foods = db.foods ∧
    ((logFoodToDiary fid outcome o db).1.diary_entries
          = db.diary_entries ++ [buildEntry fid o] ∧
        (logFoodToDiary fid outcome o db).2 = Except.ok ()
      ∨ (logFoodToDiary fid outcome o db).1 = db ∧
        (logFoodToDiary fid outcome o db).2
          = Except.error WriteError.writeFailed) := by
  cases outcome with
  | committed => exact ⟨rfl, Or.inl ⟨rfl, rfl⟩⟩
  | failed => exact ⟨rfl, Or.inr ⟨rfl, rfl⟩⟩

/-- C7 counterexample: a fully valid, committed call resolves with the unit
(`void`/`undefined`) value — the created DiaryEntry is in the store but is
not the function's result. -/
theorem logFoodToDiary_returns_void_cex :
    (logFoodToDiary "e1" WriteOutcome.committed logP3opts ⟨[grilledChicken], []⟩).2
        = Except.ok () ∧
    (logFoodToDiary "e1" WriteOutcome.committed logP3opts ⟨[grilledChicken], []⟩).1.diary_entries
        = [buildEntry "e1" logP3opts] :=
  ⟨rfl, rfl⟩

/-- C7 as amended: on a committed write `logFoodToDiary` persists the new
entry but returns `void` (`Except.ok ()`), not the committed DiaryEntry. -/
theorem logFoodToDiary_returns_void (fid : String) (o : LogOptions) (db : DB) :
    logFoodToDiary fid WriteOutcome.committed o db
      = ({ db with diary_entries := db.diary_entries ++ [buildEntry fid o] },
          Except.ok ()) :=
  rfl

/-- C8: historical stability.  After a committed log, changing the source
FoodRecord's calories in the catalog leaves the diary collection — and so
the logged entry's stored totals, still `servings * calories-at-creation` —
untouched. -/
theorem logFoodToDiary_historical_stability (fid : String) (o : LogOptions)
    (db : DB) (i : String) (c : ℚ) :
    (updateFoodCalories i c
        ((logFoodToDiary fid WriteOutcome.committed o db).1)).diary_entries
      = db.diary_entries ++ [buildEntry fid o] ∧
    (buildEntry fid o).calories = o.food.calories * o.servings :=
  ⟨rfl, rfl⟩

/-- C2 counterexample: the non-empty query `"%"` returns the food named
`"xyz"`, whose name does not contain the token `"%"` as a substring — the
returned set is not "exactly the records containing every token". -/
theorem searchFoods_literal_substring_cex :
    searchFoods "%" [foodXyz] = [foodXyz] ∧
    containsCI "%".data "xyz".data = false := by
  constructor
  · decide
  · decide

/-- C2 as amended: for a non-empty query all of whose tokens are free of
the LIKE metacharacters `%` and `_`, `searchFoods` returns exactly the
foods whose name case-insensitively contains every token as a substring,
and any non-empty query with the same token set (in particular any
permutation of the tokens) returns the same records. -/
theorem searchFoods_conjunctive (q : String) (cat : List Food)
    (hq : q ≠ "")
    (hmeta : ∀ w ∈ searchWords q, '%' ∉ w ∧ '_' ∉ w) :
    searchFoods q cat
        = cat.filter (fun f => (searchWords q).all (fun w => containsCI w f.name.data)) ∧
    ∀ q' : String, q' ≠ "" → (∀ w, w ∈ searchWords q' ↔ w ∈ searchWords q) →
      searchFoods q' cat = searchFoods q cat := by
  constructor
  · rw [searchFoods, if_neg hq]
    refine List.filter_congr (fun f _ => ?_)
    rw [foodMatches]
    exact all_congr_mem
      (fun w hw => likeMatch_token w f.name.data (hmeta w hw).1 (hmeta w hw).2)
  · intro q' hq' hmem
    rw [searchFoods, searchFoods, if_neg hq, if_neg hq']
    exact List.filter_congr (fun f _ => all_eq_of_mem_iff hmem _)

theorem searchFoods_conjunctive_witness :
    searchFoods "chicken breast" [grilledChicken]
        = [grilledChicken].filter
            (fun f => (searchWords "chicken breast").all
              (fun w => containsCI w f.name.data)) ∧
    searchFoods "BREAST chicken" [grilledChicken]
        = searchFoods "chicken breast" [grilledChicken] := by
  have h := searchFoods_conjunctive "chicken breast" [grilledChicken]
    (by decide) (by decide)
  have hperm : (searchWords "BREAST chicken").Perm (searchWords "chicken breast") := by
    decide
  exact ⟨h.1, h.2 "BREAST chicken" (by decide) (fun w => hperm.mem_iff)⟩

/-- C3 counterexample: the whitespace-only query `"   "` is not caught by
the `!query` guard; its token set is empty, the conjunction is vacuous, and
the whole catalog — not an empty sequence — is returned. -/
theorem searchFoods_whitespace_query_cex :
    searchFoods "   " [foodXyz] = [foodXyz] ∧
    searchFoods "   " [foodXyz] ≠ [] := by
  constructor
  · decide
  · decide

/-- C3 as amended: only the empty string query short-circuits to `[]`; a
query of `n > 0` spaces passes the guard, yields no tokens, and returns
every food in the catalog. -/
theorem searchFoods_empty_query (cat : List Food) (n : ℕ) (hn : 0 < n) :
    searchFoods "" cat = [] ∧ searchFoods (spacesOnly n) cat = cat := by
  refine ⟨rfl, ?_⟩
  have hne : spacesOnly n ≠ "" := by
    intro h
    have hd : (spacesOnly n).data = "".data := by rw [h]
    rw [spacesOnly] at hd
    simp only [List.replicate_eq_nil_iff] at hd
    omega
  have hw : searchWords (spacesOnly n) = [] := by
    rw [searchWords, spacesOnly]
    show tokensOf ((List.replicate n ' ').map Char.toLower) = []
    rw [List.map_replicate]
    have : ' '.toLower = ' ' := by decide
    rw [this, tokensOf_replicate]
  rw [searchFoods, if_neg hne, hw]
  have : ∀ f ∈ cat, foodMatches [] f = true := fun f _ => rfl
  rw [List.filter_congr this, List.filter_true]

theorem searchFoods_empty_query_witness :
    searchFoods "" [foodXyz] = [] ∧
    searchFoods (spacesOnly 3) [foodXyz] = [foodXyz] :=
  searchFoods_empty_query [foodXyz] 3 (by decide)

/-- C9 counterexample: `searchFoods` is not insensitive to adding leading
whitespace: the empty query returns `[]` while a single-space query returns
the whole catalog. -/
theorem searchFoods_whitespace_insensitivity_cex :
    searchFoods "" [foodXyz] ≠ searchFoods " " [foodXyz] := by
  decide

/-- C9 as amended: matching is insensitive to letter case (queries equal
after lowercasing return the same records), and for a *non-empty* query it
is insensitive to leading/trailing space characters; the empty query is the
one exception (it short-circuits to `[]` while a space-padded variant does
not). -/
theorem searchFoods_case_space_insensitive (q1 q2 : String) (cat : List Food)
    (hcase : q1.data.map Char.toLower = q2.data.map Char.toLower) :
    searchFoods q1 cat = searchFoods q2 cat ∧
    (∀ n m : ℕ, q1 ≠ "" →
      searchFoods (spacesOnly n ++ q1 ++ spacesOnly m) cat = searchFoods q1 cat) := by
  constructor
  · by_cases h1 : q1 = ""
    · have h2 : q2 = "" := by
        apply String.ext
        subst h1
        simpa using hcase.symm
      rw [h1, h2]
    · have h2 : q2 ≠ "" := by
        intro h
        apply h1
        apply String.ext
        rw [h] at hcase
        simpa using hcase
      have hw : searchWords q1 = searchWords q2 := by
        rw [searchWords, searchWords, hcase]
      rw [searchFoods, searchFoods, if_neg h1, if_neg h2, hw]
  · intro n m h1
    have hne : spacesOnly n ++ q1 ++ spacesOnly m ≠ "" := by
      intro h
      apply h1
      have hd : (spacesOnly n ++ q1 ++ spacesOnly m).data = "".data := by rw [h]
      simp only [String.data_append, List.append_eq_nil] at hd
      exact String.ext hd.1.2
    have hw : searchWords (spacesOnly n ++ q1 ++ spacesOnly m) = searchWords q1 := by
      rw [searchWords, searchWords]
      have hd : (spacesOnly n ++ q1 ++ spacesOnly m).data
          = List.replicate n ' ' ++ q1.data ++ List.replicate m ' ' := by
        simp [String.data_append, spacesOnly]
      rw [hd]
      have hsp : ' '.toLower = ' ' := by decide
      rw [List.append_assoc, List.map_append, List.map_replicate, hsp,
        tokensOf_replicate_append, List.map_append, List.map_replicate, hsp,
        tokensOf_append_replicate]
    rw [searchFoods, searchFoods, if_neg hne, if_neg h1, hw]

theorem searchFoods_case_space_insensitive_witness :
    searchFoods "CHICKEN" [grilledChicken] = searchFoods "chicken" [grilledChicken] ∧
    searchFoods (spacesOnly 1 ++ "CHICKEN" ++ spacesOnly 1) [grilledChicken]
      = searchFoods "CHICKEN" [grilledChicken] := by
  have h := searchFoods_case_space_insensitive "CHICKEN" "chicken" [grilledChicken]
    (by decide)
  exact ⟨h.1, h.2 1 1 (by decide)⟩

/-- C10: the query `"a_c"` carries the LIKE wildcard `_` straight into the
`%a_c%` pattern, so the food named `"abc"` is returned even though its name
does not contain `"a_c"` as a literal substring. -/
theorem searchFoods_like_wildcard :
    searchFoods "a_c" [foodAbc] = [foodAbc] ∧
    containsCI "a_c".data "abc".data = false := by
  constructor
  · decide
  · decide

/-- Entries for exercising the date-keyed subscription. -/
def entry15 : DiaryEntry :=
  ⟨"d1", "u1", "f1", "2024-01-15", MealType.breakfast, 1, 0, 0, 0, 0⟩

def entry16 : DiaryEntry :=
  ⟨"d2", "u1", "f1", "2024-01-16", MealType.lunch, 1, 0, 0, 0, 0⟩

/-- An entry under the malformed date string of P7. -/
def entryMal : DiaryEntry :=
  ⟨"d3", "u1", "f1", "2024-01-5", MealType.dinner, 1, 0, 0, 0, 0⟩

def dbObs : DB := ⟨[], [entry15, entryMal]⟩

/-- C6: a subscription for date `d` delivers only entries whose `date`
equals `d` exactly (in every snapshot it ever delivers); the first delivery
is the current matching set; appending an entry under a different date
triggers no re-delivery; and a mutation that does change the matching set
triggers re-delivery of the complete current matching set. -/
theorem observeDiaryEntriesForDate_spec (d : String) (init : DB) (states : List DB) :
    (∀ snap ∈ observeDiaryEntriesForDate d init states, ∀ e ∈ snap, e.date = d) ∧
    (observeDiaryEntriesForDate d init states).head? = some (matchingEntries d init) ∧
    (∀ e : DiaryEntry, e.date ≠ d →
      observeDiaryEntriesForDate d init [appendEntry e init]
        = [matchingEntries d init]) ∧
    (∀ s : DB, matchingEntries d s ≠ matchingEntries d init →
      observeDiaryEntriesForDate d init [s]
        = [matchingEntries d init, matchingEntries d s]) := by
  refine ⟨?_, rfl, ?_, ?_⟩
  · intro snap hsnap e he
    rw [observeDiaryEntriesForDate] at hsnap
    rcases List.mem_cons.mp hsnap with rfl | h'
    · exact date_of_mem_matching d init e he
    · obtain ⟨db', _, rfl⟩ := mem_deliverAux d _ _ snap h'
      exact date_of_mem_matching d db' e he
  · intro e hne
    have hsame : matchingEntries d (appendEntry e init) = matchingEntries d init := by
      rw [matchingEntries, matchingEntries, appendEntry]
      show List.filter _ (init.diary_entries ++ [e]) = _
      rw [List.filter_append]
      have : (e.date == d) = false := beq_eq_false_iff_ne.mpr hne
      simp [this]
    rw [observeDiaryEntriesForDate, deliverAux, if_pos hsame, deliverAux]
  · intro s hdiff
    rw [observeDiaryEntriesForDate, deliverAux, if_neg hdiff, deliverAux]

theorem observeDiaryEntriesForDate_spec_witness :
    entry15.date = "2024-01-15" ∧
    observeDiaryEntriesForDate "2024-01-15" dbObs [appendEntry entry16 dbObs]
      = [matchingEntries "2024-01-15" dbObs] := by
  have h := observeDiaryEntriesForDate_spec "2024-01-15" dbObs
    [appendEntry entry16 dbObs]
  refine ⟨?_, h.2.2.1 entry16 (by decide)⟩
  exact h.1 (matchingEntries "2024-01-15" dbObs)
    (by rw [observeDiaryEntriesForDate]; exact List.mem_cons_self _ _)
    entry15 (by decide)
